import Mathlib

/-!
Shallow embedding of `scripts/witness_slip_notifier.py` (chihacknight/govbot).

Python strings are modelled as Lean `String` (operations work on the
underlying `List Char`), `datetime` values as `Int` (seconds; a day is
86400 so `timedelta(days=30)` is `30 * 86400`), Python `None`-able values
as `Option`, a Python `set` as a `List` consumed only through membership,
and the insertion-ordered `dict` of routed bills as an association list.
-/

namespace Govbot

/-- Python's substring test `n in h` on lists of characters:
true iff `n` occurs contiguously in `h` (the empty needle always matches). -/
def listContains (n : List Char) : List Char → Bool
  | [] => n.isEmpty
  | c :: cs => n.isPrefixOf (c :: cs) || listContains n cs

/-- Python's `n in h` on strings. -/
def strIn (n h : String) : Bool := listContains n.data h.data

/-- Python `s.lower()` (ASCII model, character by character). -/
def strLower (s : String) : String := ⟨s.data.map Char.toLower⟩

/-- Python `s.strip()`: drop whitespace from both ends. -/
def pyStrip (s : String) : String :=
  ⟨((s.data.dropWhile Char.isWhitespace).reverse.dropWhile Char.isWhitespace).reverse⟩

/-- Fuel-driven core of Python `str.replace(old, new)`: scan left to right,
replacing each non-overlapping occurrence of `old`.  One fuel unit is spent
per step and every step consumes at least one character, so fuel equal to
the length of the input is enough. -/
def pyReplaceFuel (old new : List Char) : Nat → List Char → List Char
  | 0, s => s
  | _ + 1, [] => []
  | f + 1, c :: cs =>
    if !old.isEmpty && old.isPrefixOf (c :: cs) then
      new ++ pyReplaceFuel old new f ((c :: cs).drop old.length)
    else
      c :: pyReplaceFuel old new f cs

/-- Python `s.replace(old, new)` (every call site of the script passes a
non-empty `old`, so the empty-`old` corner of Python is irrelevant here). -/
def pyReplace (s old new : String) : String :=
  ⟨pyReplaceFuel old.data new.data s.data.length s.data⟩

/-- `BillReading` enum of the script. -/
inductive BillReading where
  | FIRST
  | SECOND
  | THIRD
deriving DecidableEq, Repr

/-- `Chamber` enum of the script. -/
inductive Chamber where
  | HOUSE
  | SENATE
deriving DecidableEq, Repr

/-- The `Bill` object after `__init__` has run (all fields populated). -/
structure Bill where
  bill_number : String
  chamber : Chamber
  title : String
  sponsor : String
  next_reading : BillReading
  subjects : List String
  committee_hearing_date : Option Int
  committee_name : Option String
  ilga_url : String
deriving DecidableEq, Repr

/-- Document-type code of `Bill.get_bill_status_url`:
`"HB" if self.chamber == Chamber.HOUSE else "SB"`. -/
def docTypeOf (chamber : Chamber) : String :=
  if chamber = Chamber.HOUSE then "HB" else "SB"

/-- `Bill.get_bill_status_url`: chamber picks the document-type code, and the
identifier is passed through three `str.replace` calls stripping occurrences
of the substrings `doc_type`, "SB" and "HB". -/
def get_bill_status_url (chamber : Chamber) (bill_number : String) : String :=
  let doc_type := docTypeOf chamber
  let bill_num := pyReplace (pyReplace (pyReplace bill_number doc_type "") "SB" "") "HB" ""
  "https://www.ilga.gov/legislation/BillStatus?DocTypeID=" ++ doc_type ++ "&DocNum=" ++ bill_num

/-- `Bill.__init__`: `subjects or []` and `ilga_url or self.get_bill_status_url()`
(Python truthiness: `None` and the empty string both fall back). -/
def billInit (bill_number : String) (chamber : Chamber) (title sponsor : String)
    (next_reading : BillReading) (subjects : Option (List String))
    (committee_hearing_date : Option Int) (committee_name : Option String)
    (ilga_url : Option String) : Bill :=
  { bill_number := bill_number
    chamber := chamber
    title := title
    sponsor := sponsor
    next_reading := next_reading
    subjects := subjects.getD []
    committee_hearing_date := committee_hearing_date
    committee_name := committee_name
    ilga_url :=
      match ilga_url with
      | some u => if u = "" then get_bill_status_url chamber bill_number else u
      | none => get_bill_status_url chamber bill_number }

/-- `Bill.matches_topics`: no subjects means no match; otherwise the nested
loops with early return, which are exactly `List.any`. Subjects are
lower-cased, topics lower-cased then stripped. -/
def matches_topics (bill : Bill) (topic_list : List String) : Bool :=
  if bill.subjects.isEmpty then
    false
  else
    let normalized_subjects := bill.subjects.map strLower
    let normalized_topics := topic_list.map (fun t => pyStrip (strLower t))
    normalized_subjects.any (fun subject =>
      normalized_topics.any (fun topic => strIn topic subject || strIn subject topic))

/-- One entry of a record's `actions` list, with the fields `_parse_bill`
reads: `description` (default `''` via `.get('description', '')`), the
optional `date`, and the optional `organization.name`
(`action.get('organization', \x7b\x7d).get('name')`, absent or null both `none`). -/
structure Action where
  description : String
  date : Option String
  orgName : Option String
deriving DecidableEq, Repr

/-- One entry of a record's `sponsorships` list: `primary` flag
(`s.get('primary')` truthy) and the optional `name`. -/
structure Sponsorship where
  primary : Bool
  name : Option String
deriving DecidableEq, Repr

/-- A JSON field that the script accepts either as a single string or as a
list of strings (`title`, `subject`). -/
inductive StrOrList where
  | str (s : String)
  | list (l : List String)
deriving DecidableEq, Repr

/-- The fields of an OpenStates bill record that `_parse_bill` reads.
Absent keys are `none`; `from_organization.get('classification', '')` is
pre-flattened to a string (absent dict or key gives `""`); `sources` keeps
only each entry's optional `url`. -/
structure BillRecord where
  identifier : Option String
  bill_id : Option String
  fromOrgClassification : String
  title : Option StrOrList
  sponsorships : List Sponsorship
  subject : Option StrOrList
  actions : List Action
  sources : List (Option String)
deriving DecidableEq, Repr

/-- Python `a or b` on optional strings (`None` and `''` are falsy). -/
def pyOrStr (a b : Option String) : Option String :=
  match a with
  | some s => if s = "" then b else some s
  | none => b

/-- Reading-stage loop of `_parse_bill`, already running over
`reversed(actions)`: the first description (most recent first) containing
"third reading" gives THIRD, else the first containing "second reading"
gives SECOND, breaking there; any other description is passed over, and an
exhausted list leaves the initial default FIRST. -/
def readingScan : List Action → BillReading
  | [] => BillReading.FIRST
  | a :: rest =>
    let desc := strLower a.description
    if strIn "third reading" desc then BillReading.THIRD
    else if strIn "second reading" desc then BillReading.SECOND
    else readingScan rest

/-- Next-reading stage from a chronological action list: the script iterates
`reversed(actions)`. -/
def readingFromActions (actions : List Action) : BillReading :=
  readingScan actions.reverse

/-- Condition of the committee-info loop: the lower-cased description
contains both "committee" and "hearing". -/
def hearingActionMatch (a : Action) : Bool :=
  strIn "committee" (strLower a.description) && strIn "hearing" (strLower a.description)

/-- Date extraction of the committee-info loop: skipped when the `date`
field is absent or empty (Python truthiness of `if date_str:`), otherwise
`datetime.fromisoformat(date_str.replace('Z', '+00:00'))` with the raised
`ValueError` swallowed to `none`.  `fromiso` abstracts
`datetime.fromisoformat`, `none` standing for a parse failure. -/
def actionHearingDate (fromiso : String → Option Int) (a : Action) : Option Int :=
  match a.date with
  | some ds => if ds = "" then none else fromiso (pyReplace ds "Z" "+00:00")
  | none => none

/-- Committee-info loop of `_parse_bill`: scan `actions` from the front; at
the first action satisfying `hearingActionMatch`, take its parsed date and
its `organization.name`, and break. -/
def committeeScan (fromiso : String → Option Int) :
    List Action → Option Int × Option String
  | [] => (none, none)
  | a :: rest =>
    if hearingActionMatch a then (actionHearingDate fromiso a, a.orgName)
    else committeeScan fromiso rest

/-- `_parse_bill`: normalize one OpenStates record to a `Bill`, or `none`
when the effective identifier (`identifier or bill_id`) is falsy. The inner
`try` never fires in this total model; its catch-all behaviour is studied
separately through the loader's abstract normalizer. -/
def parseBill (fromiso : String → Option Int) (bill_data : BillRecord) : Option Bill :=
  match pyOrStr bill_data.identifier bill_data.bill_id with
  | none => none
  | some identifier =>
    if identifier = "" then none
    else
      let chamber_str := bill_data.fromOrgClassification
      let chamber :=
        if strIn "upper" (strLower chamber_str) || strIn "senate" (strLower chamber_str) then
          Chamber.SENATE
        else
          Chamber.HOUSE
      let title :=
        match bill_data.title with
        | none => "Unknown"
        | some (StrOrList.str t) => t
        | some (StrOrList.list []) => "Unknown"
        | some (StrOrList.list (t :: _)) => t
      let sponsor :=
        match bill_data.sponsorships with
        | [] => "Unknown"
        | s0 :: _ =>
          let primary := (bill_data.sponsorships.find? (fun s => s.primary)).getD s0
          primary.name.getD "Unknown"
      let subjects :=
        match bill_data.subject with
        | none => []
        | some (StrOrList.str s) => [s]
        | some (StrOrList.list l) => l
      let next_reading := readingFromActions bill_data.actions
      let committee := committeeScan fromiso bill_data.actions
      let ilga_url :=
        match bill_data.sources with
        | [] => none
        | u :: _ => u
      some (billInit identifier chamber title sponsor next_reading (some subjects)
        committee.1 committee.2 ilga_url)

/-- Outcome of `json.load` on one data file: a single record, a list of
records, or a raised exception (the `Except.error` case). -/
inductive JsonData where
  | one (r : BillRecord)
  | many (rs : List BillRecord)

/-- One JSON file under the data directory: its base name and the outcome
of opening and JSON-decoding it. -/
structure FileEntry where
  name : String
  content : Except String JsonData

/-- The catch-all `try` inside `_parse_bill`: an abstract normalizer that
may raise (`Except.error`) is collapsed to `none` (record skipped). -/
def normWrap (norm : BillRecord → Except String (Option Bill)) (r : BillRecord) :
    Option Bill :=
  match norm r with
  | Except.error _ => none
  | Except.ok o => o

/-- Bills contributed by one file in `parse_data_directory`:
`metadata.json` is skipped by name, a `json.load` failure hits the
per-file `except`/`continue`, and otherwise each record is normalized,
keeping the non-`None` results in order. -/
def fileBills (norm : BillRecord → Except String (Option Bill)) (f : FileEntry) :
    List Bill :=
  if f.name = "metadata.json" then []
  else
    match f.content with
    | Except.error _ => []
    | Except.ok (JsonData.one r) => (normWrap norm r).toList
    | Except.ok (JsonData.many rs) => rs.filterMap (normWrap norm)

/-- Dedup loop of `parse_data_directory`: walk the collected bills keeping
a `seen` set of identifiers (modelled as the list of its elements; the
loop only adds an identifier when it is absent, which is `List.cons` here)
and keep each bill whose `bill_number` is unseen. -/
def dedupAux (seen : List String) : List Bill → List Bill
  | [] => []
  | b :: bs =>
    if b.bill_number ∈ seen then dedupAux seen bs
    else b :: dedupAux (b.bill_number :: seen) bs

/-- The dedup stage: `seen` starts empty. -/
def dedupBills (bills : List Bill) : List Bill := dedupAux [] bills

/-- `OpenStatesParser.parse_data_directory`: a missing directory (`none`)
returns `[]`; otherwise bills are collected file by file in discovery
order (the per-file append loop is the concatenation of `fileBills`) and
deduplicated. -/
def parse_data_directory (norm : BillRecord → Except String (Option Bill))
    (dir : Option (List FileEntry)) : List Bill :=
  match dir with
  | none => []
  | some files => dedupBills (files.flatMap (fileBills norm))

/-- Specification-shaped dedup for comparison with `dedupBills`, following
the spec's words: keep the first occurrence of each `bill_number`, in
order of first occurrence, dropping every later duplicate. -/
def firstOccDedup : List Bill → List Bill
  | [] => []
  | b :: bs =>
    b :: firstOccDedup (bs.filter (fun x => x.bill_number ≠ b.bill_number))
termination_by l => l.length
decreasing_by
  simp only [List.length_cons]
  exact Nat.lt_succ_of_le (bs.length_filter_le _)

/-- The subscription-relevant part of the configuration dict built by
`EnvironmentConfig.load` (`config['subscriptions']`). -/
structure SubsConfig where
  tracked_bills : List String
  transportation_topics : List String
  transportation_recipients : List String
  housing_topics : List String
  housing_recipients : List String

/-- Category labels used by `_route_bills`. -/
def trackedLabel : String := "🎯 Tracked Bills"

/-- Transportation category label. -/
def transportationLabel : String := "🚇 Transportation & Transit"

/-- Housing category label. -/
def housingLabel : String := "🏘️ Housing & Development"

/-- Append a bill under a category key of the insertion-ordered routed
dict (create the key at the end if absent, as the dict does). -/
def addToCategory (routed : List (String × List Bill)) (cat : String) (b : Bill) :
    List (String × List Bill) :=
  match routed with
  | [] => [(cat, [b])]
  | (c, l) :: rest =>
    if c = cat then (c, l ++ [b]) :: rest
    else (c, l) :: addToCategory rest cat b

/-- Body of the specific-bill-tracking loop of `_route_bills`: a bill whose
identifier is in `tracked_bills` is appended to the tracked category and
its identifier added to the `matched` set (membership model, so `cons`). -/
def routeTrackedStep (tracked : List String)
    (acc : List (String × List Bill) × List String) (b : Bill) :
    List (String × List Bill) × List String :=
  if b.bill_number ∈ tracked then
    (addToCategory acc.1 trackedLabel b, b.bill_number :: acc.2)
  else acc

/-- One topic-based subscription block of `_route_bills` (the source
repeats this block verbatim for transportation and for housing): skipped
entirely when the recipient list is empty (`if trans_recipients:`);
otherwise the bills not yet claimed in `matched` that match the
subscription's topics are collected, and when that list is non-empty the
category key is assigned (a fresh key, appended at the end of the
insertion-ordered dict) and the bills' identifiers are claimed. -/
def topicPhase (label : String) (topics recipients : List String)
    (bills : List Bill) (acc : List (String × List Bill) × List String) :
    List (String × List Bill) × List String :=
  if recipients.isEmpty then acc
  else
    let sub_bills := bills.filter (fun b =>
      decide (b.bill_number ∉ acc.2) && matches_topics b topics)
    if sub_bills.isEmpty then acc
    else (acc.1 ++ [(label, sub_bills)], acc.2 ++ sub_bills.map Bill.bill_number)

/-- `NotificationGenerator._route_bills`: tracked bills first (no recipient
gate), then the transportation block, then the housing block. -/
def route_bills (subs : SubsConfig) (bills : List Bill) :
    List (String × List Bill) :=
  (topicPhase housingLabel subs.housing_topics subs.housing_recipients bills
    (topicPhase transportationLabel subs.transportation_topics
      subs.transportation_recipients bills
      (bills.foldl (routeTrackedStep subs.tracked_bills) ([], [])))).1

/-- Actionability test of `main`: hearing date inside `[now, now + 30 days]`
(both `and`-guarded on presence and inclusive, dates in seconds), or next
reading in `[FIRST, SECOND]`. -/
def isActionable (now : Int) (b : Bill) : Bool :=
  (match b.committee_hearing_date with
   | some d => decide (now ≤ d) && decide (d ≤ now + 30 * 86400)
   | none => false) ||
  decide (b.next_reading ∈ [BillReading.FIRST, BillReading.SECOND])

/-- The `actionable` list comprehension of `main`. -/
def actionableFilter (now : Int) (bills : List Bill) : List Bill :=
  bills.filter (isActionable now)

/-- Python `s.split(',')` (separator fixed to the comma the script uses):
the empty string yields `[""]`, and empty fields are kept. -/
def splitCommaAux : List Char → List Char → List String
  | acc, [] => [⟨acc.reverse⟩]
  | acc, c :: cs =>
    if c = ',' then ⟨acc.reverse⟩ :: splitCommaAux [] cs
    else splitCommaAux (c :: acc) cs

/-- Python `s.split(',')` on strings. -/
def pySplitComma (s : String) : List String := splitCommaAux [] s.data

/-- Topic list of a subscription in `EnvironmentConfig.load`: the
environment value (or the hard-coded default when the variable is unset)
split on commas, each piece stripped — with no emptiness filter. -/
def envTopics (envVal : Option String) (dflt : String) : List String :=
  (pySplitComma (envVal.getD dflt)).map pyStrip

/-- Recipient list of a subscription in `EnvironmentConfig.load`: split on
commas, stripped, and — unlike topics — empty entries dropped
(the `if r.strip()` guard). -/
def envRecipients (envVal : Option String) : List String :=
  ((pySplitComma (envVal.getD "")).map pyStrip).filter (fun r => r ≠ "")

/-- Modelled from the spec for comparison with `get_bill_status_url`: the
spec says DocNum is the numeric portion of the identifier "with every
non-digit character (such as chamber prefixes) stripped". -/
def specStatusUrl (chamber : Chamber) (bill_number : String) : String :=
  "https://www.ilga.gov/legislation/BillStatus?DocTypeID=" ++ docTypeOf chamber ++
    "&DocNum=" ++ ⟨bill_number.data.filter Char.isDigit⟩

/-- Reading-stage scan expressed on bare description strings; proof device
relating `readingScan` to the descriptions it inspects. -/
def readingScanD : List String → BillReading
  | [] => BillReading.FIRST
  | d :: rest =>
    let desc := strLower d
    if strIn "third reading" desc then BillReading.THIRD
    else if strIn "second reading" desc then BillReading.SECOND
    else readingScanD rest

/-- Invariant of the routing accumulator: every routed bill identifier is
claimed in `matched`, and no identifier sits in two distinct categories. -/
def RoutedInv (routed : List (String × List Bill)) (matched : List String) : Prop :=
  (∀ p ∈ routed, ∀ b ∈ p.2, b.bill_number ∈ matched) ∧
  (∀ (n : String) (p q : String × List Bill), p ∈ routed → q ∈ routed →
    (∃ b ∈ p.2, b.bill_number = n) → (∃ b ∈ q.2, b.bill_number = n) → p = q)

/-- Concrete record for the reading-stage recency scenario: three actions,
"First Reading" then "Second Reading" then "First Reading", in
chronological order. -/
def c1Record : BillRecord :=
  { identifier := some "HB1"
    bill_id := none
    fromOrgClassification := ""
    title := none
    sponsorships := []
    subject := none
    actions := [⟨"First Reading", none, none⟩, ⟨"Second Reading", none, none⟩,
      ⟨"First Reading", none, none⟩]
    sources := [] }

/-- Concrete bill used by the routing exclusivity witness. -/
def wBill : Bill :=
  ⟨"HB1", Chamber.HOUSE, "t", "sp", BillReading.FIRST, ["Transportation"], none, none, "u"⟩

/-- Concrete subscriptions used by the routing exclusivity witness: `wBill`
is both tracked and matches the transportation topics. -/
def wSubs : SubsConfig := ⟨["HB1"], ["Transportation"], ["x"], ["Housing"], []⟩

/-- Concrete bill used by the recipient-gating witness: matches both topic
lists. -/
def w4Bill : Bill :=
  ⟨"SB9", Chamber.SENATE, "t", "sp", BillReading.FIRST, ["Transportation"], none, none, "u"⟩

/-- Concrete subscriptions used by the recipient-gating witness: the
transportation subscription has no recipients, housing does, and both
share a topic the bill carries. -/
def w4Subs : SubsConfig := ⟨[], ["Transportation"], [], ["Transportation"], ["a"]⟩

/-- Concrete bill with one subject, used by the topic-match witnesses. -/
def w5Bill : Bill :=
  ⟨"HB5", Chamber.HOUSE, "t", "sp", BillReading.FIRST, ["Transportation"], none, none, "u"⟩

/-- Concrete bill with no subjects, used by the topic-match witnesses. -/
def w5Empty : Bill :=
  ⟨"HB6", Chamber.HOUSE, "t", "sp", BillReading.FIRST, [], none, none, "u"⟩

/-- Concrete bills for the dedup witness: two share an identifier. -/
def w6A : Bill :=
  ⟨"HB1", Chamber.HOUSE, "first copy", "sp", BillReading.FIRST, [], none, none, "u"⟩

/-- Duplicate of `w6A`'s identifier with different fields. -/
def w6A2 : Bill :=
  ⟨"HB1", Chamber.HOUSE, "second copy", "sp", BillReading.SECOND, [], none, none, "u"⟩

/-- A distinct identifier for the dedup witness. -/
def w6B : Bill :=
  ⟨"SB2", Chamber.SENATE, "other", "sp", BillReading.FIRST, [], none, none, "u"⟩

/-- Bill whose hearing is exactly 30 days after time zero. -/
def w7Hearing : Bill :=
  ⟨"HB7", Chamber.HOUSE, "t", "sp", BillReading.THIRD, [], some (30 * 86400), none, "u"⟩

/-- Bill whose hearing is 31 days after time zero, on third reading. -/
def w7Late : Bill :=
  ⟨"HB8", Chamber.HOUSE, "t", "sp", BillReading.THIRD, [], some (31 * 86400), none, "u"⟩

/-- Bill with no hearing date, on third reading. -/
def w7None : Bill :=
  ⟨"HB9", Chamber.HOUSE, "t", "sp", BillReading.THIRD, [], none, none, "u"⟩

/-- Well-formed record for the loader witness. -/
def w8Rec : BillRecord := ⟨some "HB2", none, "", none, [], none, [], []⟩

/-- Record the witness normalizer fails on. -/
def w8Bad : BillRecord := ⟨some "BAD", none, "", none, [], none, [], []⟩

/-- Witness normalizer: raises (models an exception) on `w8Bad`, otherwise
runs `parseBill`. -/
def norm0 : BillRecord → Except String (Option Bill) := fun r =>
  if r.identifier = some "BAD" then Except.error "boom"
  else Except.ok (parseBill (fun _ => none) r)

/-- File whose JSON decoding fails. -/
def w8BadFile : FileEntry := ⟨"a.json", Except.error "invalid json"⟩

/-- File holding a record list including the failing record. -/
def w8GoodFile : FileEntry := ⟨"b.json", Except.ok (JsonData.many [w8Bad, w8Rec])⟩

/-- Action matching the committee-hearing condition, with a date whose
parse the witness `fromiso` rejects. -/
def w9Action : Action :=
  ⟨"Scheduled for Committee Hearing", some "2025-03-01T10:00:00Z",
    some "Transportation Committee"⟩

/-- Witness stand-in for `datetime.fromisoformat` that always fails. -/
def w9fromiso : String → Option Int := fun _ => none

/-- Concrete bill with an arbitrary subject, for the empty-topic witness. -/
def w10Bill : Bill :=
  ⟨"HB3", Chamber.HOUSE, "t", "sp", BillReading.FIRST, ["Anything"], none, none, "u"⟩

/-- The boolean substring test agrees with `List.IsInfix`. -/
theorem listContains_iff (n : List Char) (h : List Char) :
    listContains n h = true ↔ n <:+: h := by
  induction h with
  | nil => simp [listContains, List.isEmpty_iff]
  | cons c cs ih => simp [listContains, List.infix_cons_iff, ih]

/-- The empty needle occurs in every haystack, as Python's `'' in s`. -/
theorem listContains_nil (h : List Char) : listContains [] h = true := by
  cases h <;> simp [listContains]

/-- String form of `listContains_nil`. -/
theorem strIn_empty (h : String) : strIn "" h = true := listContains_nil h.data

/-- A replacement scan on the empty input returns the empty list at any
fuel. -/
theorem pyReplaceFuel_nil (old new : List Char) (f : Nat) :
    pyReplaceFuel old new f [] = [] := by
  cases f <;> rfl

/-- The replacement scan does not depend on the fuel once the fuel covers
the input length. -/
theorem pyReplaceFuel_fuel_irrel (old new : List Char) :
    ∀ (f1 : Nat) (s : List Char) (f2 : Nat), s.length ≤ f1 → s.length ≤ f2 →
      pyReplaceFuel old new f1 s = pyReplaceFuel old new f2 s := by
  intro f1
  induction f1 with
  | zero =>
    intro s f2 h1 _
    rw [List.length_eq_zero.mp (Nat.le_zero.mp h1), pyReplaceFuel_nil, pyReplaceFuel_nil]
  | succ a ih =>
    intro s f2 h1 h2
    cases s with
    | nil => rw [pyReplaceFuel_nil, pyReplaceFuel_nil]
    | cons c cs =>
      cases f2 with
      | zero => simp at h2
      | succ b =>
        simp only [List.length_cons] at h1 h2
        simp only [pyReplaceFuel]
        by_cases hcond : (!old.isEmpty && old.isPrefixOf (c :: cs)) = true
        · rw [if_pos hcond, if_pos hcond]
          have hpos : 0 < old.length := by
            rw [Bool.and_eq_true] at hcond
            cases old with
            | nil => simp at hcond
            | cons _ _ => simp
          congr 1
          refine ih _ _ ?_ ?_ <;>
            · rw [List.length_drop]; simp only [List.length_cons]; omega
        · rw [if_neg hcond, if_neg hcond]
          congr 1
          exact ih cs b (by omega) (by omega)

/-- A replacement scan starting right on an occurrence of `old` replaces it
and continues after it. -/
theorem listReplace_head (old new s : List Char) (h : old ≠ []) :
    pyReplaceFuel old new (old ++ s).length (old ++ s) =
      new ++ pyReplaceFuel old new s.length s := by
  cases old with
  | nil => exact absurd rfl h
  | cons o os =>
    have hcond : (!(o :: os).isEmpty && (o :: os).isPrefixOf (o :: (os ++ s))) = true := by
      simp only [Bool.and_eq_true, List.isPrefixOf_iff_prefix]
      exact ⟨rfl, by rw [← List.cons_append]; exact List.prefix_append _ _⟩
    show pyReplaceFuel (o :: os) new ((os ++ s).length + 1) (o :: (os ++ s)) = _
    simp only [pyReplaceFuel]
    rw [if_pos hcond]
    have hdrop : (o :: (os ++ s)).drop (o :: os).length = s := by
      rw [← List.cons_append]
      exact List.drop_left _ _
    rw [hdrop]
    congr 1
    apply pyReplaceFuel_fuel_irrel
    · simp
    · exact Nat.le_refl _

/-- A replacement scan over a list avoiding the first character of `old`
changes nothing. -/
theorem listReplace_no_first (o : Char) (os new : List Char) :
    ∀ (s : List Char) (f : Nat), s.length ≤ f → o ∉ s →
      pyReplaceFuel (o :: os) new f s = s := by
  intro s
  induction s with
  | nil => intro f _ _; exact pyReplaceFuel_nil _ _ _
  | cons c cs ih =>
    intro f hf hmem
    cases f with
    | zero => simp at hf
    | succ b =>
      simp only [pyReplaceFuel]
      rw [if_neg]
      · rw [ih b (by simpa using hf) (fun hc => hmem (List.mem_cons_of_mem c hc))]
      · intro hcond
        have hpref := ((Bool.and_eq_true _ _).mp hcond).2
        rw [ List.isPrefixOf_iff_prefix, List.cons_prefix_cons] at hpref
        exact hmem (hpref.1 ▸ List.mem_cons_self c cs)

/-- Python replace on a string starting with `old` rewrites the head
occurrence and recurses on the remainder. -/
theorem pyReplace_head (old s new : String) (h : old ≠ "") :
    pyReplace (old ++ s) old new = new ++ pyReplace s old new := by
  have hd : old.data ≠ [] := by
    intro hnil
    exact h (String.ext_iff.mpr (hnil.trans rfl))
  rw [String.ext_iff]
  show pyReplaceFuel old.data new.data (old.data ++ s.data).length (old.data ++ s.data) =
    new.data ++ pyReplaceFuel old.data new.data s.data.length s.data
  exact listReplace_head old.data new.data s.data hd

/-- Python replace is the identity when the first character of `old` does
not occur in the subject string. -/
theorem pyReplace_no_first (s old new : String) (o : Char) (os : List Char)
    (hdata : old.data = o :: os) (h : o ∉ s.data) : pyReplace s old new = s := by
  rw [String.ext_iff]
  show pyReplaceFuel old.data new.data s.data.length s.data = s.data
  rw [hdata]
  exact listReplace_no_first o os new.data s.data s.data.length (Nat.le_refl _) h

/-- A digit is neither the letter H nor the letter S. -/
theorem digit_ne_HS (ds : String) (h : ds.data.all Char.isDigit = true) :
    'H' ∉ ds.data ∧ 'S' ∉ ds.data := by
  constructor <;> intro hmem <;> exact absurd (List.all_eq_true.mp h _ hmem) (by decide)

/-- The reading scan only looks at action descriptions. -/
theorem readingScan_eq_D (l : List Action) :
    readingScan l = readingScanD (l.map Action.description) := by
  induction l with
  | nil => rfl
  | cons a rest ih => simp [readingScan, readingScanD, ih]

/-- A successfully normalized bill carries the reading stage computed from
the record's action list. -/
theorem parseBill_next_reading (fromiso : String → Option Int) (r : BillRecord)
    (bill : Bill) (hp : parseBill fromiso r = some bill) :
    bill.next_reading = readingFromActions r.actions := by
  unfold parseBill at hp
  cases hid : pyOrStr r.identifier r.bill_id with
  | none => rw [hid] at hp; cases hp
  | some s =>
    rw [hid] at hp
    by_cases hs : s = ""
    · simp [hs] at hp
    · simp only [hs, if_false, if_neg hs, Option.some.injEq] at hp
      rw [← hp]
      rfl

/-- The seen-set dedup loop computes the first-occurrence dedup of the
bills not yet seen. -/
theorem dedupAux_eq_firstOcc :
    ∀ (bills : List Bill) (seen : List String),
      dedupAux seen bills =
        firstOccDedup (bills.filter (fun b => decide (b.bill_number ∉ seen))) := by
  intro bills
  induction bills with
  | nil => intro seen; simp [dedupAux, firstOccDedup]
  | cons b bs ih =>
    intro seen
    by_cases hmem : b.bill_number ∈ seen
    · rw [dedupAux, if_pos hmem, List.filter_cons_of_neg (by simp [hmem]), ih]
    · rw [dedupAux, if_neg hmem, List.filter_cons_of_pos (by simp [hmem]), firstOccDedup,
        List.filter_filter, ih (b.bill_number :: seen)]
      congr 1
      congr 1
      apply List.filter_congr
      intro x _
      simp only [List.mem_cons, not_or, decide_not, Bool.decide_and]

/-- The dedup loop output is a sublist of its input, so relative order is
preserved. -/
theorem dedupAux_sublist : ∀ (bills : List Bill) (seen : List String),
    (dedupAux seen bills).Sublist bills := by
  intro bills
  induction bills with
  | nil => intro _; exact List.Sublist.refl []
  | cons b bs ih =>
    intro seen
    rw [dedupAux]
    by_cases h : b.bill_number ∈ seen
    · rw [if_pos h]; exact (ih seen).cons b
    · rw [if_neg h]; exact (ih _).cons₂ b

/-- Every bill kept by the first-occurrence dedup comes from the input. -/
theorem firstOcc_subset : ∀ (l : List Bill) (x : Bill), x ∈ firstOccDedup l → x ∈ l := by
  intro l
  induction l using firstOccDedup.induct with
  | case1 => intro x hx; simp [firstOccDedup] at hx
  | case2 b bs ih =>
    intro x hx
    rw [firstOccDedup] at hx
    rcases List.mem_cons.mp hx with h | h
    · exact h ▸ List.mem_cons_self b _
    · exact List.mem_cons_of_mem b (List.mem_of_mem_filter (ih x h))

/-- The first-occurrence dedup keeps each identifier at most once. -/
theorem firstOcc_nodup_nums : ∀ l : List Bill,
    ((firstOccDedup l).map Bill.bill_number).Nodup := by
  intro l
  induction l using firstOccDedup.induct with
  | case1 => simp [firstOccDedup]
  | case2 b bs ih =>
    rw [firstOccDedup]
    rw [List.map_cons, List.nodup_cons]
    refine ⟨?_, ih⟩
    intro hmem
    obtain ⟨x, hx, hxe⟩ := List.mem_map.mp hmem
    have := List.of_mem_filter (firstOcc_subset _ x hx)
    simp [hxe] at this

/-- Each bill kept by the dedup loop is the first input bill carrying its
identifier. -/
theorem dedupAux_find : ∀ (bills : List Bill) (seen : List String) (x : Bill),
    x ∈ dedupAux seen bills →
      x.bill_number ∉ seen ∧
        bills.find? (fun b => b.bill_number == x.bill_number) = some x := by
  intro bills
  induction bills with
  | nil => intro seen x hx; simp [dedupAux] at hx
  | cons b bs ih =>
    intro seen x hx
    rw [dedupAux] at hx
    by_cases h : b.bill_number ∈ seen
    · rw [if_pos h] at hx
      obtain ⟨hns, hfind⟩ := ih seen x hx
      refine ⟨hns, ?_⟩
      rw [List.find?_cons_of_neg, hfind]
      simp only [beq_iff_eq]
      intro heq
      exact hns (heq ▸ h)
    · rw [if_neg h] at hx
      rcases List.mem_cons.mp hx with rfl | hx'
      · exact ⟨h, by rw [List.find?_cons_of_pos _ (by simp)]⟩
      · obtain ⟨hns, hfind⟩ := ih _ x hx'
        rw [List.mem_cons, not_or] at hns
        refine ⟨hns.2, ?_⟩
        rw [List.find?_cons_of_neg, hfind]
        simp only [beq_iff_eq]
        exact fun heq => hns.1 heq.symm

/-- An identifier survives the dedup loop exactly when it was not already
seen and occurs in the input. -/
theorem dedupAux_mem_nums : ∀ (bills : List Bill) (seen : List String) (n : String),
    n ∈ (dedupAux seen bills).map Bill.bill_number ↔
      (n ∉ seen ∧ n ∈ bills.map Bill.bill_number) := by
  intro bills
  induction bills with
  | nil => intro seen n; simp [dedupAux]
  | cons b bs ih =>
    intro seen n
    rw [dedupAux]
    by_cases h : b.bill_number ∈ seen
    · rw [if_pos h, ih, List.map_cons, List.mem_cons]
      constructor
      · rintro ⟨hns, hmem⟩; exact ⟨hns, Or.inr hmem⟩
      · rintro ⟨hns, rfl | hmem⟩
        · exact absurd h hns
        · exact ⟨hns, hmem⟩
    · rw [if_neg h, List.map_cons, List.mem_cons, ih, List.map_cons, List.mem_cons]
      by_cases hn : n = b.bill_number
      · subst hn
        simp [h]
      · simp only [hn, false_or, List.mem_cons, not_or]

/-- Folding the tracked-bill step over a dict that already has the tracked
key appends the tracked bills in input order. -/
theorem trackedFold_fst_cons (tr : List String) :
    ∀ (bills : List Bill) (l : List Bill) (m : List String),
      (bills.foldl (routeTrackedStep tr) ([(trackedLabel, l)], m)).1 =
        [(trackedLabel, l ++ bills.filter (fun b => decide (b.bill_number ∈ tr)))] := by
  intro bills
  induction bills with
  | nil => intro l m; simp
  | cons b bs ih =>
    intro l m
    rw [List.foldl_cons]
    by_cases h : b.bill_number ∈ tr
    · rw [show routeTrackedStep tr ([(trackedLabel, l)], m) b =
          ([(trackedLabel, l ++ [b])], b.bill_number :: m) from by
        simp [routeTrackedStep, h, addToCategory]]
      rw [ih, List.filter_cons_of_pos (by simp [h]), List.append_assoc, List.singleton_append]
    · rw [show routeTrackedStep tr ([(trackedLabel, l)], m) b = ([(trackedLabel, l)], m) from by
        simp [routeTrackedStep, h]]
      rw [ih, List.filter_cons_of_neg (by simp [h])]

/-- The tracked-bill loop either leaves the dict empty or creates exactly
the tracked category, holding the tracked bills in input order. -/
theorem trackedFold_fst_nil (tr : List String) :
    ∀ (bills : List Bill) (m : List String),
      (bills.foldl (routeTrackedStep tr) ([], m)).1 =
        if (bills.filter (fun b => decide (b.bill_number ∈ tr))).isEmpty then []
        else [(trackedLabel, bills.filter (fun b => decide (b.bill_number ∈ tr)))] := by
  intro bills
  induction bills with
  | nil => intro m; rfl
  | cons b bs ih =>
    intro m
    rw [List.foldl_cons]
    by_cases h : b.bill_number ∈ tr
    · rw [show routeTrackedStep tr ([], m) b = ([(trackedLabel, [b])], b.bill_number :: m) from by
        simp [routeTrackedStep, h, addToCategory]]
      rw [trackedFold_fst_cons, List.filter_cons_of_pos (by simp [h])]
      simp
    · rw [show routeTrackedStep tr ([], m) b = ([], m) from by simp [routeTrackedStep, h]]
      rw [ih, List.filter_cons_of_neg (by simp [h])]

/-- Identifiers claimed by the tracked-bill loop: those already claimed,
plus the tracked identifiers present in the input. -/
theorem trackedFold_snd (tr : List String) :
    ∀ (bills : List Bill) (acc : List (String × List Bill) × List String) (n : String),
      (n ∈ (bills.foldl (routeTrackedStep tr) acc).2 ↔
        n ∈ acc.2 ∨ (n ∈ tr ∧ n ∈ bills.map Bill.bill_number)) := by
  intro bills
  induction bills with
  | nil => intro acc n; simp
  | cons b bs ih =>
    intro acc n
    rw [List.foldl_cons]
    by_cases h : b.bill_number ∈ tr
    · rw [ih]
      have hsnd : (routeTrackedStep tr acc b).2 = b.bill_number :: acc.2 := by
        simp [routeTrackedStep, h]
      rw [hsnd, List.mem_cons, List.map_cons, List.mem_cons]
      constructor
      · rintro ((rfl | hm) | ⟨htr, hmap⟩)
        · exact Or.inr ⟨h, Or.inl rfl⟩
        · exact Or.inl hm
        · exact Or.inr ⟨htr, Or.inr hmap⟩
      · rintro (hm | ⟨htr, rfl | hmap⟩)
        · exact Or.inl (Or.inr hm)
        · exact Or.inl (Or.inl rfl)
        · exact Or.inr ⟨htr, hmap⟩
    · rw [show routeTrackedStep tr acc b = acc from by simp [routeTrackedStep, h], ih,
        List.map_cons, List.mem_cons]
      constructor
      · rintro (hm | ⟨htr, hmap⟩)
        · exact Or.inl hm
        · exact Or.inr ⟨htr, Or.inr hmap⟩
      · rintro (hm | ⟨htr, rfl | hmap⟩)
        · exact Or.inl hm
        · exact absurd htr h
        · exact Or.inr ⟨htr, hmap⟩

/-- Adding a fresh category whose bills are all unclaimed preserves the
routing invariant. -/
theorem RoutedInv.extend (routed : List (String × List Bill)) (matched : List String)
    (label : String) (l : List Bill) (hinv : RoutedInv routed matched)
    (hl : ∀ b ∈ l, b.bill_number ∉ matched) :
    RoutedInv (routed ++ [(label, l)]) (matched ++ l.map Bill.bill_number) := by
  obtain ⟨ha, hb⟩ := hinv
  constructor
  · intro p hp b hbmem
    rcases List.mem_append.mp hp with h | h
    · exact List.mem_append_left _ (ha p h b hbmem)
    · rw [List.mem_singleton] at h
      subst h
      exact List.mem_append_right _ (List.mem_map_of_mem _ hbmem)
  · intro n p q hp hq hpn hqn
    rcases List.mem_append.mp hp with hp' | hp' <;> rcases List.mem_append.mp hq with hq' | hq'
    · exact hb n p q hp' hq' hpn hqn
    · exfalso
      rw [List.mem_singleton] at hq'
      obtain ⟨b, hbmem, rfl⟩ := hpn
      obtain ⟨c, hcmem, hcn⟩ := hqn
      subst hq'
      exact hl c hcmem (hcn ▸ ha p hp' b hbmem)
    · exfalso
      rw [List.mem_singleton] at hp'
      obtain ⟨b, hbmem, rfl⟩ := hqn
      obtain ⟨c, hcmem, hcn⟩ := hpn
      subst hp'
      exact hl c hcmem (hcn ▸ ha q hq' b hbmem)
    · rw [List.mem_singleton] at hp' hq'
      rw [hp', hq']

/-- A topic-subscription block preserves the routing invariant. -/
theorem topicPhase_inv (label : String) (topics recipients : List String)
    (bills : List Bill) (acc : List (String × List Bill) × List String)
    (hinv : RoutedInv acc.1 acc.2) :
    RoutedInv (topicPhase label topics recipients bills acc).1
      (topicPhase label topics recipients bills acc).2 := by
  simp only [topicPhase]
  split_ifs with h1 h2
  · exact hinv
  · exact hinv
  · exact RoutedInv.extend acc.1 acc.2 label _ hinv
      (fun b hb => of_decide_eq_true ((Bool.and_eq_true _ _).mp (List.mem_filter.mp hb).2).1)

/-- A topic-subscription block only grows the claimed identifier set. -/
theorem topicPhase_matched_mono (label : String) (topics recipients : List String)
    (bills : List Bill) (acc : List (String × List Bill) × List String) (n : String)
    (h : n ∈ acc.2) : n ∈ (topicPhase label topics recipients bills acc).2 := by
  simp only [topicPhase]
  split_ifs
  · exact h
  · exact h
  · exact List.mem_append_left _ h

/-- Every category after a topic-subscription block either predates the
block or is the block's own label, holding unclaimed topic-matching input
bills. -/
theorem topicPhase_fst_cases (label : String) (topics recipients : List String)
    (bills : List Bill) (acc : List (String × List Bill) × List String)
    (p : String × List Bill) (hp : p ∈ (topicPhase label topics recipients bills acc).1) :
    p ∈ acc.1 ∨ (p.1 = label ∧ ∀ b ∈ p.2,
      b ∈ bills ∧ b.bill_number ∉ acc.2 ∧ matches_topics b topics = true) := by
  simp only [topicPhase] at hp
  split_ifs at hp with h1 h2
  · exact Or.inl hp
  · exact Or.inl hp
  · rcases List.mem_append.mp hp with h | h
    · exact Or.inl h
    · right
      rw [List.mem_singleton] at h
      subst h
      refine ⟨rfl, fun b hb => ?_⟩
      have hm := List.mem_filter.mp hb
      have hcond := (Bool.and_eq_true _ _).mp hm.2
      exact ⟨hm.1, of_decide_eq_true hcond.1, hcond.2⟩

/-- A topic-subscription block with recipients assigns every unclaimed
matching bill to its category. -/
theorem topicPhase_adds (label : String) (topics recipients : List String)
    (bills : List Bill) (acc : List (String × List Bill) × List String) (b : Bill)
    (hrec : recipients ≠ []) (hb : b ∈ bills) (hnm : b.bill_number ∉ acc.2)
    (hmt : matches_topics b topics = true) :
    ∃ l, (label, l) ∈ (topicPhase label topics recipients bills acc).1 ∧ b ∈ l := by
  simp only [topicPhase]
  rw [if_neg (by simp [hrec])]
  have hbf : b ∈ bills.filter (fun b =>
      decide (b.bill_number ∉ acc.2) && matches_topics b topics) :=
    List.mem_filter.mpr ⟨hb, by simp [hnm, hmt]⟩
  rw [if_neg (by simp only [List.isEmpty_iff]; exact List.ne_nil_of_mem hbf)]
  exact ⟨_, List.mem_append_right _ (List.mem_singleton_self _), hbf⟩

/-- The tracked-bill loop establishes the routing invariant. -/
theorem trackedInv (tr : List String) (bills : List Bill) :
    RoutedInv (bills.foldl (routeTrackedStep tr) ([], [])).1
      (bills.foldl (routeTrackedStep tr) ([], [])).2 := by
  constructor
  · intro p hp b hb
    rw [trackedFold_fst_nil] at hp
    split_ifs at hp with h
    · simp at hp
    · rw [List.mem_singleton] at hp
      subst hp
      rw [trackedFold_snd]
      have hm := List.mem_filter.mp hb
      exact Or.inr ⟨of_decide_eq_true hm.2, List.mem_map_of_mem _ hm.1⟩
  · intro n p q hp hq _ _
    rw [trackedFold_fst_nil] at hp hq
    split_ifs at hp hq with h
    · simp at hp
    · rw [List.mem_singleton] at hp hq
      rw [hp, hq]

/-- The only category the tracked-bill loop can create is the tracked
one. -/
theorem trackedFst_label (tr : List String) (bills : List Bill) :
    ∀ p ∈ (bills.foldl (routeTrackedStep tr) ([], [])).1, p.1 = trackedLabel := by
  intro p hp
  rw [trackedFold_fst_nil] at hp
  split_ifs at hp
  · simp at hp
  · rw [List.mem_singleton] at hp
    rw [hp]

/-- Claim C1, counterexample: for the record whose action history is
"First Reading", "Second Reading", "First Reading" in chronological order,
the normalizer resolves the next-reading stage to SECOND, not FIRST as the
claim states — a "First Reading" description never stops the backward
scan, which only breaks on "third reading" or "second reading". -/
theorem C1_reading_stage_counterexample :
    (parseBill (fun _ => none) c1Record).map Bill.next_reading = some BillReading.SECOND ∧
    ¬ (parseBill (fun _ => none) c1Record).map Bill.next_reading = some BillReading.FIRST := by
  decide

/-- Claim C1, amended: for every record whose action history is
"First Reading", "Second Reading", "First Reading" in chronological order,
the normalizer resolves the next-reading stage to SECOND, because the
backward scan stops at the first action containing "third reading" or
"second reading"; actions containing neither are passed over. -/
theorem C1_reading_stage (fromiso : String → Option Int) (r : BillRecord) (bill : Bill)
    (hacts : r.actions.map Action.description =
      ["First Reading", "Second Reading", "First Reading"])
    (hp : parseBill fromiso r = some bill) :
    bill.next_reading = BillReading.SECOND := by
  rw [parseBill_next_reading fromiso r bill hp]
  rw [readingFromActions, readingScan_eq_D, List.map_reverse, hacts]
  decide

/-- Witness for C1: the concrete record `c1Record` instantiates the amended
claim. -/
theorem C1_reading_stage_witness :
    (⟨"HB1", Chamber.HOUSE, "Unknown", "Unknown", BillReading.SECOND, [], none, none,
      "https://www.ilga.gov/legislation/BillStatus?DocTypeID=HB&DocNum=1"⟩ : Bill).next_reading
      = BillReading.SECOND :=
  C1_reading_stage (fun _ => none) c1Record _ (by decide) (by decide)

/-- Claim C2, counterexample: for the HOUSE bill "HR0012" constructed
without a source URL, the synthesized DocNum keeps the non-digit
characters "HR" — the code removes only the substrings "HB" and "SB", not
every non-digit character as the claim states. -/
theorem C2_status_url_counterexample :
    (billInit "HR0012" Chamber.HOUSE "t" "sp" BillReading.FIRST none none none none).ilga_url =
      "https://www.ilga.gov/legislation/BillStatus?DocTypeID=HB&DocNum=HR0012" ∧
    (billInit "HR0012" Chamber.HOUSE "t" "sp" BillReading.FIRST none none none none).ilga_url ≠
      specStatusUrl Chamber.HOUSE "HR0012" := by
  decide

/-- Claim C2, amended: for every Bill constructed without a supplied source
URL, the status URL is the base URL with DocTypeID the chamber's code and
DocNum the identifier with the substrings of the chamber code, "SB" and
"HB" removed (not every non-digit character); when the identifier is the
chamber code followed by digits, DocNum is exactly those digits. -/
theorem C2_status_url :
    (∀ (bn : String) (ch : Chamber) (t sp : String) (nr : BillReading)
        (subj : Option (List String)) (chd : Option Int) (cn : Option String),
      (billInit bn ch t sp nr subj chd cn none).ilga_url =
        "https://www.ilga.gov/legislation/BillStatus?DocTypeID=" ++ docTypeOf ch ++
          "&DocNum=" ++ pyReplace (pyReplace (pyReplace bn (docTypeOf ch) "") "SB" "") "HB" "") ∧
    (∀ (ch : Chamber) (ds : String) (t sp : String) (nr : BillReading)
        (subj : Option (List String)) (chd : Option Int) (cn : Option String),
      ds.data.all Char.isDigit = true →
      (billInit (docTypeOf ch ++ ds) ch t sp nr subj chd cn none).ilga_url =
        "https://www.ilga.gov/legislation/BillStatus?DocTypeID=" ++ docTypeOf ch ++
          "&DocNum=" ++ ds) := by
  constructor
  · intro bn ch t sp nr subj chd cn
    rfl
  · intro ch ds t sp nr subj chd cn hds
    obtain ⟨hH, hS⟩ := digit_ne_HS ds hds
    show "https://www.ilga.gov/legislation/BillStatus?DocTypeID=" ++ docTypeOf ch ++
        "&DocNum=" ++
        pyReplace (pyReplace (pyReplace (docTypeOf ch ++ ds) (docTypeOf ch) "") "SB" "") "HB" "" =
      _
    congr 1
    cases ch with
    | HOUSE =>
      rw [show docTypeOf Chamber.HOUSE = "HB" from rfl]
      rw [pyReplace_head "HB" ds "" (by decide), String.empty_append,
        pyReplace_no_first ds "HB" "" 'H' ['B'] rfl hH,
        pyReplace_no_first ds "SB" "" 'S' ['B'] rfl hS,
        pyReplace_no_first ds "HB" "" 'H' ['B'] rfl hH]
    | SENATE =>
      rw [show docTypeOf Chamber.SENATE = "SB" from rfl]
      rw [pyReplace_head "SB" ds "" (by decide), String.empty_append,
        pyReplace_no_first ds "SB" "" 'S' ['B'] rfl hS,
        pyReplace_no_first ds "SB" "" 'S' ['B'] rfl hS,
        pyReplace_no_first ds "HB" "" 'H' ['B'] rfl hH]

/-- Witness for C2: a HOUSE bill "HB1234" without a source URL yields the
spec's example URL. -/
theorem C2_status_url_witness :
    (billInit "HB1234" Chamber.HOUSE "t" "sp" BillReading.FIRST none none none none).ilga_url =
      "https://www.ilga.gov/legislation/BillStatus?DocTypeID=HB&DocNum=1234" := by
  have h := C2_status_url.2 Chamber.HOUSE "1234" "t" "sp" BillReading.FIRST none none none
    (by decide)
  rw [show docTypeOf Chamber.HOUSE ++ "1234" = "HB1234" from by decide,
    show "https://www.ilga.gov/legislation/BillStatus?DocTypeID=" ++ docTypeOf Chamber.HOUSE ++
      "&DocNum=" ++ "1234" =
      "https://www.ilga.gov/legislation/BillStatus?DocTypeID=HB&DocNum=1234" from by decide] at h
  exact h

/-- Claim C3: the routed output assigns each bill identifier to at most one
category (two categories containing the same identifier are the same
category), and a bill whose identifier is tracked can only ever appear in
the tracked-bills category, regardless of recipient configuration. -/
theorem C3_route_exclusivity (subs : SubsConfig) (bills : List Bill) :
    (∀ (n : String) (p q : String × List Bill),
      p ∈ route_bills subs bills → q ∈ route_bills subs bills →
      (∃ b ∈ p.2, b.bill_number = n) → (∃ b ∈ q.2, b.bill_number = n) → p = q) ∧
    (∀ n ∈ subs.tracked_bills, ∀ p ∈ route_bills subs bills,
      (∃ b ∈ p.2, b.bill_number = n) → p.1 = trackedLabel) := by
  have hinv3 : RoutedInv (route_bills subs bills)
      (topicPhase housingLabel subs.housing_topics subs.housing_recipients bills
        (topicPhase transportationLabel subs.transportation_topics
          subs.transportation_recipients bills
          (bills.foldl (routeTrackedStep subs.tracked_bills) ([], [])))).2 :=
    topicPhase_inv _ _ _ _ _ (topicPhase_inv _ _ _ _ _ (trackedInv _ _))
  constructor
  · intro n p q hp hq hpn hqn
    exact hinv3.2 n p q hp hq hpn hqn
  · intro n hn p hp hpn
    obtain ⟨b, hbmem, hbn⟩ := hpn
    subst hbn
    rcases topicPhase_fst_cases _ _ _ _ _ _ hp with hp2 | ⟨hlab, hprop⟩
    · rcases topicPhase_fst_cases _ _ _ _ _ _ hp2 with hp1 | ⟨hlab, hprop⟩
      · exact trackedFst_label _ _ p hp1
      · exfalso
        obtain ⟨hbb, hnm, -⟩ := hprop b hbmem
        exact hnm ((trackedFold_snd _ _ _ _).mpr (Or.inr ⟨hn, List.mem_map_of_mem _ hbb⟩))
    · exfalso
      obtain ⟨hbb, hnm, -⟩ := hprop b hbmem
      exact hnm (topicPhase_matched_mono _ _ _ _ _ _
        ((trackedFold_snd _ _ _ _).mpr (Or.inr ⟨hn, List.mem_map_of_mem _ hbb⟩)))

/-- Witness for C3: with `wBill` tracked and also matching the
transportation topics, its only category is the tracked one. -/
theorem C3_route_exclusivity_witness :
    ((trackedLabel, [wBill]) : String × List Bill) = (trackedLabel, [wBill]) ∧
    ((trackedLabel, [wBill]) : String × List Bill).1 = trackedLabel :=
  ⟨(C3_route_exclusivity wSubs [wBill]).1 "HB1" (trackedLabel, [wBill]) (trackedLabel, [wBill])
      (by decide) (by decide) ⟨wBill, by decide, rfl⟩ ⟨wBill, by decide, rfl⟩,
    (C3_route_exclusivity wSubs [wBill]).2 "HB1" (by decide) (trackedLabel, [wBill]) (by decide)
      ⟨wBill, by decide, rfl⟩⟩

/-- Claim C4: a topic subscription with no recipients contributes no
category and claims no identifiers; a non-tracked bill matching both the
recipient-less transportation subscription and the housing subscription
(which has recipients) is routed to the housing category. -/
theorem C4_recipient_gating (subs : SubsConfig) (bills : List Bill) (b : Bill)
    (hrec : subs.transportation_recipients = []) :
    (∀ p ∈ route_bills subs bills, p.1 ≠ transportationLabel) ∧
    (b ∈ bills → b.bill_number ∉ subs.tracked_bills →
      matches_topics b subs.transportation_topics = true →
      matches_topics b subs.housing_topics = true →
      subs.housing_recipients ≠ [] →
      ∃ l, (housingLabel, l) ∈ route_bills subs bills ∧ b ∈ l) := by
  have hskip : topicPhase transportationLabel subs.transportation_topics
      subs.transportation_recipients bills
      (bills.foldl (routeTrackedStep subs.tracked_bills) ([], [])) =
      bills.foldl (routeTrackedStep subs.tracked_bills) ([], []) := by
    simp only [topicPhase]
    rw [if_pos (by simp [hrec])]
  have hre : route_bills subs bills =
      (topicPhase housingLabel subs.housing_topics subs.housing_recipients bills
        (bills.foldl (routeTrackedStep subs.tracked_bills) ([], []))).1 := by
    unfold route_bills
    rw [hskip]
  constructor
  · intro p hp
    rw [hre] at hp
    rcases topicPhase_fst_cases _ _ _ _ _ _ hp with hp1 | ⟨hlab, -⟩
    · rw [trackedFst_label _ _ p hp1]
      decide
    · rw [hlab]
      decide
  · intro hb hnt hmtt hmth hhr
    have hnm1 : b.bill_number ∉
        (bills.foldl (routeTrackedStep subs.tracked_bills) ([], [])).2 := by
      rw [trackedFold_snd]
      rintro (h | ⟨h, -⟩)
      · simp at h
      · exact hnt h
    obtain ⟨l, hl, hbl⟩ := topicPhase_adds housingLabel subs.housing_topics
      subs.housing_recipients bills _ b hhr hb hnm1 hmth
    rw [hre]
    exact ⟨l, hl, hbl⟩

/-- Witness for C4: with no transportation recipients, `w4Bill` (matching
both topic lists) lands in the housing category and no transportation
category exists. -/
theorem C4_recipient_gating_witness :
    (∀ p ∈ route_bills w4Subs [w4Bill], p.1 ≠ transportationLabel) ∧
    (∃ l, (housingLabel, l) ∈ route_bills w4Subs [w4Bill] ∧ w4Bill ∈ l) :=
  ⟨(C4_recipient_gating w4Subs [w4Bill] w4Bill rfl).1,
    (C4_recipient_gating w4Subs [w4Bill] w4Bill rfl).2 (by decide) (by decide) (by decide)
      (by decide) (by decide)⟩

/-- Claim C5: `matches_topics` returns true exactly when some lower-cased,
trimmed configured topic is a contiguous substring of some lower-cased
bill subject or vice versa; it returns false whenever the subjects list is
empty, regardless of the topic list. -/
theorem C5_topic_match (bill : Bill) (topics : List String) :
    (matches_topics bill topics = true ↔
      ∃ s ∈ bill.subjects, ∃ t ∈ topics,
        (pyStrip (strLower t)).data <:+: (strLower s).data ∨
        (strLower s).data <:+: (pyStrip (strLower t)).data) ∧
    (bill.subjects = [] → matches_topics bill topics = false) := by
  constructor
  · unfold matches_topics
    by_cases hs : bill.subjects.isEmpty
    · rw [List.isEmpty_iff] at hs
      simp [hs]
    · rw [List.isEmpty_iff] at hs
      simp [hs, List.any_eq_true, List.mem_map, strIn, listContains_iff]
  · intro h
    unfold matches_topics
    simp [h]

/-- Witness for C5: a subject-bearing bill matches a padded topic in the
substring sense, and a subjectless bill matches nothing. -/
theorem C5_topic_match_witness :
    matches_topics w5Bill [" Transport "] = true ∧
    matches_topics w5Empty ["Housing"] = false :=
  ⟨(C5_topic_match w5Bill [" Transport "]).1.mpr
      ⟨"Transportation", by decide, " Transport ", by decide,
        Or.inl ((listContains_iff _ _).mp (by decide))⟩,
    (C5_topic_match w5Empty ["Housing"]).2 rfl⟩

/-- Claim C6: the loader's dedup keeps exactly one bill per distinct
identifier — the first-encountered occurrence — in order of first
occurrence: it equals the first-occurrence dedup, is a sublist of the
input, has pairwise distinct identifiers, keeps for each identifier the
first input bill carrying it, and loses no identifier. -/
theorem C6_dedup_first_occurrence (bills : List Bill) :
    dedupBills bills = firstOccDedup bills ∧
    (dedupBills bills).Sublist bills ∧
    ((dedupBills bills).map Bill.bill_number).Nodup ∧
    (∀ x ∈ dedupBills bills,
      bills.find? (fun b => b.bill_number == x.bill_number) = some x) ∧
    (∀ n, n ∈ bills.map Bill.bill_number ↔ n ∈ (dedupBills bills).map Bill.bill_number) := by
  have heq : dedupBills bills = firstOccDedup bills := by
    rw [dedupBills, dedupAux_eq_firstOcc]
    congr 1
    rw [List.filter_congr
      (fun x _ => by simp :
        ∀ x ∈ bills, (decide (x.bill_number ∉ ([] : List String))) = true)]
    exact List.filter_true bills
  refine ⟨heq, dedupAux_sublist bills [], heq ▸ firstOcc_nodup_nums bills, ?_, ?_⟩
  · intro x hx
    exact (dedupAux_find bills [] x hx).2
  · intro n
    rw [dedupBills, dedupAux_mem_nums]
    simp

/-- Witness for C6: deduplicating two copies of "HB1" keeps the first
copy. -/
theorem C6_dedup_witness :
    dedupBills [w6A, w6A2, w6B] = firstOccDedup [w6A, w6A2, w6B] ∧
    [w6A, w6A2, w6B].find? (fun b => b.bill_number == w6A.bill_number) = some w6A :=
  ⟨(C6_dedup_first_occurrence [w6A, w6A2, w6B]).1,
    (C6_dedup_first_occurrence [w6A, w6A2, w6B]).2.2.2.1 w6A (by decide)⟩

/-- Claim C7: the actionability filter keeps a bill iff its hearing date is
in the closed interval from now to now plus 30 days, or its next reading
is FIRST or SECOND; a hearing exactly 30 days out is actionable, 31 days
out with stage THIRD is not, and no hearing with stage THIRD is not. -/
theorem C7_actionability (now : Int) (bills : List Bill) (b : Bill) :
    (b ∈ actionableFilter now bills ↔
      b ∈ bills ∧
        ((∃ d, b.committee_hearing_date = some d ∧ now ≤ d ∧ d ≤ now + 30 * 86400) ∨
          b.next_reading = BillReading.FIRST ∨ b.next_reading = BillReading.SECOND)) ∧
    (b.committee_hearing_date = some (now + 30 * 86400) → isActionable now b = true) ∧
    (b.committee_hearing_date = some (now + 31 * 86400) →
      b.next_reading = BillReading.THIRD → isActionable now b = false) ∧
    (b.committee_hearing_date = none →
      b.next_reading = BillReading.THIRD → isActionable now b = false) := by
  have hiff : isActionable now b = true ↔
      ((∃ d, b.committee_hearing_date = some d ∧ now ≤ d ∧ d ≤ now + 30 * 86400) ∨
        b.next_reading = BillReading.FIRST ∨ b.next_reading = BillReading.SECOND) := by
    unfold isActionable
    cases hd : b.committee_hearing_date <;> simp [hd]
  refine ⟨?_, ?_, ?_, ?_⟩
  · rw [actionableFilter, List.mem_filter, hiff]
  · intro hd
    rw [hiff]
    exact Or.inl ⟨now + 30 * 86400, hd, by omega, by omega⟩
  · intro hd hr
    simp [isActionable, hd, hr]
  · intro hd hr
    simp [isActionable, hd, hr]

/-- Witness for C7 at time zero: a hearing at exactly 30 days is
actionable; 31 days with THIRD is not; no hearing with THIRD is not. -/
theorem C7_actionability_witness :
    isActionable 0 w7Hearing = true ∧
    isActionable 0 w7Late = false ∧
    isActionable 0 w7None = false :=
  ⟨(C7_actionability 0 [] w7Hearing).2.1 (by decide),
    (C7_actionability 0 [] w7Late).2.2.1 (by decide) rfl,
    (C7_actionability 0 [] w7None).2.2.2 rfl rfl⟩

/-- Claim C8: the loader returns an empty list for a missing directory,
drops a file whose JSON decoding raises while still processing the other
files, and a normalization exception on a single record skips just that
record. -/
theorem C8_loader_error_tolerance (norm : BillRecord → Except String (Option Bill)) :
    (parse_data_directory norm none = []) ∧
    (∀ (pre post : List FileEntry) (f : FileEntry) (e : String),
      f.content = Except.error e →
      parse_data_directory norm (some (pre ++ f :: post)) =
        parse_data_directory norm (some (pre ++ post))) ∧
    (∀ (r : BillRecord) (e : String), norm r = Except.error e → normWrap norm r = none) ∧
    (∀ (rs1 rs2 : List BillRecord) (r : BillRecord) (e : String),
      norm r = Except.error e →
      (rs1 ++ r :: rs2).filterMap (normWrap norm) =
        (rs1 ++ rs2).filterMap (normWrap norm)) := by
  have hwrap : ∀ (r : BillRecord) (e : String), norm r = Except.error e →
      normWrap norm r = none := by
    intro r e h
    unfold normWrap
    rw [h]
  refine ⟨rfl, ?_, hwrap, ?_⟩
  · intro pre post f e hc
    have hfb : fileBills norm f = [] := by
      unfold fileBills
      split_ifs
      · rfl
      · rw [hc]
    show dedupBills ((pre ++ f :: post).flatMap (fileBills norm)) =
      dedupBills ((pre ++ post).flatMap (fileBills norm))
    rw [List.flatMap_append, List.flatMap_cons, hfb, List.flatMap_append]
    simp
  · intro rs1 rs2 r e h
    rw [List.filterMap_append, List.filterMap_append, List.filterMap_cons_none (hwrap r e h)]

/-- Witness for C8: a concrete failing JSON file is dropped, and a record
the normalizer raises on is skipped without disturbing its neighbours. -/
theorem C8_loader_witness :
    parse_data_directory norm0 none = [] ∧
    parse_data_directory norm0 (some ([w8GoodFile] ++ w8BadFile :: [])) =
      parse_data_directory norm0 (some ([w8GoodFile] ++ [])) ∧
    normWrap norm0 w8Bad = none ∧
    ([w8Bad] ++ w8Bad :: [w8Rec]).filterMap (normWrap norm0) =
      ([w8Bad] ++ [w8Rec]).filterMap (normWrap norm0) :=
  ⟨(C8_loader_error_tolerance norm0).1,
    (C8_loader_error_tolerance norm0).2.1 [w8GoodFile] [] w8BadFile "invalid json" rfl,
    (C8_loader_error_tolerance norm0).2.2.1 w8Bad "boom" rfl,
    (C8_loader_error_tolerance norm0).2.2.2 [w8Bad] [w8Rec] w8Bad "boom" rfl⟩

/-- Claim C9: committee extraction scans actions from earliest to latest
and uses only the first action whose description contains both "committee"
and "hearing": it yields that action's parsed date (via the Z-replacement)
and its organization name; when the date fails to parse the date is unset
while the name is still captured; when no action matches, both are unset. -/
theorem C9_committee_extraction (fromiso : String → Option Int) :
    (∀ actions : List Action, (∀ a ∈ actions, hearingActionMatch a = false) →
      committeeScan fromiso actions = (none, none)) ∧
    (∀ (pre : List Action) (a : Action) (post : List Action),
      (∀ b ∈ pre, hearingActionMatch b = false) → hearingActionMatch a = true →
      committeeScan fromiso (pre ++ a :: post) =
        (actionHearingDate fromiso a, a.orgName)) ∧
    (∀ (pre : List Action) (a : Action) (post : List Action) (ds : String),
      (∀ b ∈ pre, hearingActionMatch b = false) → hearingActionMatch a = true →
      a.date = some ds → fromiso (pyReplace ds "Z" "+00:00") = none →
      committeeScan fromiso (pre ++ a :: post) = (none, a.orgName)) := by
  have hnone : ∀ actions : List Action, (∀ a ∈ actions, hearingActionMatch a = false) →
      committeeScan fromiso actions = (none, none) := by
    intro actions h
    induction actions with
    | nil => rfl
    | cons a rest ih =>
      rw [committeeScan, if_neg]
      · exact ih fun b hb => h b (List.mem_cons_of_mem a hb)
      · simp [h a (List.mem_cons_self a rest)]
  have hfirst : ∀ (pre : List Action) (a : Action) (post : List Action),
      (∀ b ∈ pre, hearingActionMatch b = false) → hearingActionMatch a = true →
      committeeScan fromiso (pre ++ a :: post) =
        (actionHearingDate fromiso a, a.orgName) := by
    intro pre a post hpre ha
    induction pre with
    | nil => simp [committeeScan, ha]
    | cons b rest ih =>
      rw [List.cons_append, committeeScan, if_neg]
      · exact ih fun c hc => hpre c (List.mem_cons_of_mem b hc)
      · simp [hpre b (List.mem_cons_self b rest)]
  refine ⟨hnone, hfirst, ?_⟩
  intro pre a post ds hpre ha hdate hparse
  rw [hfirst pre a post hpre ha]
  unfold actionHearingDate
  rw [hdate]
  by_cases hds : ds = "" <;> simp [hds, hparse]

/-- Witness for C9: on a matching action whose date the parser rejects, the
scan leaves the date unset but captures the committee name. -/
theorem C9_committee_witness :
    committeeScan w9fromiso ([] ++ w9Action :: []) = (none, w9Action.orgName) :=
  (C9_committee_extraction w9fromiso).2.2 [] w9Action [] "2025-03-01T10:00:00Z"
    (by simp) (by decide) rfl rfl

/-- Claim C10: a configured topic that is empty after trimming matches
every bill with at least one subject (the empty string is a substring of
everything); the environment-derived topic list keeps empty entries, so a
topic variable set to the empty string yields the topic list containing
just the empty string, which matches every subject-bearing bill. -/
theorem C10_empty_topic_matches :
    (∀ (bill : Bill) (topics : List String) (t : String), t ∈ topics →
      pyStrip (strLower t) = "" → bill.subjects ≠ [] →
      matches_topics bill topics = true) ∧
    (∀ dflt : String, envTopics (some "") dflt = [""]) ∧
    (∀ (bill : Bill) (dflt : String), bill.subjects ≠ [] →
      matches_topics bill (envTopics (some "") dflt) = true) := by
  have main : ∀ (bill : Bill) (topics : List String) (t : String), t ∈ topics →
      pyStrip (strLower t) = "" → bill.subjects ≠ [] →
      matches_topics bill topics = true := by
    intro bill topics t ht htrim hsub
    unfold matches_topics
    rw [if_neg (by simpa [List.isEmpty_iff] using hsub)]
    simp only [List.any_eq_true, List.mem_map]
    obtain ⟨s, hs⟩ := bill.subjects.exists_mem_of_ne_nil hsub
    refine ⟨strLower s, ⟨s, hs, rfl⟩, pyStrip (strLower t), ⟨t, ht, rfl⟩, ?_⟩
    simp [htrim, strIn_empty]
  refine ⟨main, fun _ => rfl, fun bill dflt hsub => ?_⟩
  exact main bill _ "" (List.mem_singleton_self "") rfl hsub

/-- Witness for C10: with the transportation topic variable set to the
empty string, a bill with an unrelated subject still matches. -/
theorem C10_empty_topic_witness :
    matches_topics w10Bill
      (envTopics (some "")
        "Transportation,Public Transit,Roads,Highways,Bicycle,Pedestrian,Traffic") = true :=
  C10_empty_topic_matches.2.2 w10Bill
    "Transportation,Public Transit,Roads,Highways,Bicycle,Pedestrian,Traffic" (by decide)

end Govbot
